import Mathlib

/-!
Shallow embedding of the rdm-academy/api backend, covering the commit log
service (src/commitlog/service.go), the project workflow diff
(src/project/validate.go and the project service), the node projection
(src/nodes/service.go) and the data object registry (src/data/service.go).
Mongo collections are modelled as in-memory lists; `Sort("-_id").Limit(1)`
becomes a maximum over the list, `Find(q)` becomes `List.filter`, and
`FindId` becomes `List.find?`.  gRPC status errors are an explicit error
type, and the `bson.ObjectIdHex` panic is a distinct error value.
-/

/-- gRPC status errors used by the services, plus a constructor for a Go
panic (used by bson.ObjectIdHex on malformed input) and one for raw
datastore errors that are returned without a status code. -/
inductive Err where
  | invalidArgument (msg : String)
  | notFound (msg : String)
  | alreadyExists (msg : String)
  | failedPrecondition (msg : String)
  | unavailable (msg : String)
  | goPanic (msg : String)
  | dbError (msg : String)
  deriving Repr, DecidableEq

/-! ## Commit log service (src/commitlog/service.go)

Events and commits of a single project (the Go code keys collections by
project id; all requests carry the project so the validation on the
project field is kept).  ObjectIds are modelled as naturals: mgo ObjectIds
are monotonically increasing, and `Sort("-_id")` sorts by that order.  The
`parent` field of a stored commit is the hex of the parent ObjectId or the
empty string; it is modelled as `Option Nat`. -/

structure CLEvent where
  id : Nat
  time : Int
  type : String
  author : String
  data : String
  deriving Repr, DecidableEq

structure CLCommit where
  id : Nat
  msg : String
  author : String
  time : Int
  parent : Option Nat
  event : Nat
  deriving Repr, DecidableEq

structure CLState where
  events : List CLEvent
  commits : List CLCommit
  deriving Repr, DecidableEq

/-- Maximum of a list by a numeric key, as produced by a
`Find(q).Sort("-_id").Limit(1).One(..)` query: `none` exactly when the
query misses (mgo.ErrNotFound). -/
def maxByAux (f : α → Nat) (acc : α) : List α → α
  | [] => acc
  | y :: ys => maxByAux f (if f acc < f y then y else acc) ys

def maxBy (f : α → Nat) : List α → Option α
  | [] => none
  | x :: xs => some (maxByAux f x xs)

structure CommitRequest where
  project : String
  author : String
  msg : String

/-- Model of Go strings.TrimSpace: drop leading and trailing whitespace
(structurally on the character list, so it evaluates in the kernel). -/
def trimSpace (s : String) : String :=
  ⟨((s.data.dropWhile Char.isWhitespace).reverse.dropWhile Char.isWhitespace).reverse⟩

/-- Commit translated from service.Commit.  `freshId` stands for the
ObjectId generated by bson.NewObjectId and `now` for time.Now().Unix().
On success the new commit is appended to the commit collection and its id
is returned. -/
def commitOp (st : CLState) (freshId : Nat) (now : Int) (req : CommitRequest) :
    Except Err (CLState × Nat) :=
  if req.project = "" then .error (.invalidArgument "project required") else
  let msg := trimSpace req.msg
  if msg = "" then .error (.invalidArgument "message required") else
  let latest := maxBy CLCommit.id st.commits
  let cands := match latest with
    | none => st.events
    | some l => st.events.filter (fun e => decide (l.event < e.id))
  match maxBy CLEvent.id cands with
  | none => .error (.failedPrecondition "nothing to commit")
  | some e =>
    let parent : Option Nat := match latest with
      | none => none
      | some l => some l.id
    let c : CLCommit :=
      { id := freshId, msg := msg, author := req.author, time := now,
        parent := parent, event := e.id }
    .ok ({ st with commits := st.commits ++ [c] }, freshId)

/-! ### Spec-side characterizations for the commit operation -/

/-- Latest commit of the project: a commit whose ObjectId is greatest. -/
def isLatestCommit (st : CLState) (c : CLCommit) : Prop :=
  c ∈ st.commits ∧ ∀ c2 ∈ st.commits, c2.id ≤ c.id

/-- Event newer than the latest commit's event pointer (any event at all
when no commit exists): the unsealed suffix. -/
def unsealed (st : CLState) (e : CLEvent) : Prop :=
  e ∈ st.events ∧ ∀ c, isLatestCommit st c → c.event < e.id

/-- Newest event of the unsealed suffix. -/
def newestUnsealed (st : CLState) (e : CLEvent) : Prop :=
  unsealed st e ∧ ∀ e2, unsealed st e2 → e2.id ≤ e.id

/-! ### Generic lemmas about maxBy -/

theorem maxByAux_ge_acc (f : α → Nat) (acc : α) (l : List α) :
    f acc ≤ f (maxByAux f acc l) := by
  induction l generalizing acc with
  | nil => simp [maxByAux]
  | cons y ys ih =>
    simp only [maxByAux]
    split
    · exact le_trans (le_of_lt (by assumption)) (ih y)
    · exact ih acc

theorem maxByAux_mem (f : α → Nat) (acc : α) (l : List α) :
    maxByAux f acc l = acc ∨ maxByAux f acc l ∈ l := by
  induction l generalizing acc with
  | nil => simp [maxByAux]
  | cons y ys ih =>
    simp only [maxByAux]
    split
    · rcases ih y with h | h
      · right; simp [h]
      · right; simp [h]
    · rcases ih acc with h | h
      · left; exact h
      · right; simp [h]

theorem maxByAux_ge (f : α → Nat) (acc : α) (l : List α) :
    ∀ y ∈ l, f y ≤ f (maxByAux f acc l) := by
  induction l generalizing acc with
  | nil => intro y hy; simp at hy
  | cons z zs ih =>
    intro y hy
    simp only [List.mem_cons] at hy
    rcases hy with rfl | hy
    · simp only [maxByAux]
      split
      · exact maxByAux_ge_acc f y zs
      · exact le_trans (Nat.le_of_not_lt (by assumption)) (maxByAux_ge_acc f acc zs)
    · exact ih _ y hy

theorem maxBy_mem (f : α → Nat) (l : List α) (x : α) (h : maxBy f l = some x) :
    x ∈ l := by
  cases l with
  | nil => simp [maxBy] at h
  | cons a as =>
    simp only [maxBy, Option.some.injEq] at h
    rcases maxByAux_mem f a as with h2 | h2
    · simp [← h, h2]
    · simp [← h, h2]

theorem maxBy_ge (f : α → Nat) (l : List α) (x : α) (h : maxBy f l = some x) :
    ∀ y ∈ l, f y ≤ f x := by
  cases l with
  | nil => intro y hy; simp at hy
  | cons a as =>
    simp only [maxBy, Option.some.injEq] at h
    intro y hy
    simp only [List.mem_cons] at hy
    rcases hy with rfl | hy
    · rw [← h]; exact maxByAux_ge_acc f y as
    · rw [← h]; exact maxByAux_ge f a as y hy

theorem maxBy_eq_none_iff (f : α → Nat) (l : List α) :
    maxBy f l = none ↔ l = [] := by
  cases l <;> simp [maxBy]

theorem maxBy_isSome_of_ne_nil (f : α → Nat) (l : List α) (h : l ≠ []) :
    ∃ x, maxBy f l = some x := by
  cases l with
  | nil => exact absurd rfl h
  | cons a as => exact ⟨_, rfl⟩

/-! ### History (src/commitlog/service.go, service.History)

The request's `commit` field is a string; when non-empty it is fed to
`bson.ObjectIdHex`, which panics unless the string is a 24-character hex
string (12 bytes).  The stored ObjectId named by a valid hex string is its
numeric value. -/

def isHexDigitCh (c : Char) : Bool :=
  c.isDigit || ('a' ≤ c && c ≤ 'f') || ('A' ≤ c && c ≤ 'F')

def isObjectIdHex (s : String) : Bool :=
  s.length == 24 && s.toList.all isHexDigitCh

def hexDigitVal (c : Char) : Nat :=
  if c.isDigit then c.toNat - '0'.toNat
  else if 'a' ≤ c then c.toNat - 'a'.toNat + 10
  else c.toNat - 'A'.toNat + 10

def hexVal (s : String) : Nat :=
  s.toList.foldl (fun n c => 16 * n + hexDigitVal c) 0

structure HistoryRequest where
  project : String
  commit : String

/-- Commit metadata of the reply, with the re-encoded event window
(service.History builds a Commit message holding the events). -/
structure HistCommit where
  id : Nat
  msg : String
  author : String
  time : Int
  events : List CLEvent
  deriving Repr, DecidableEq

structure HistoryReply where
  commit : Option HistCommit
  next : Option Nat
  deriving Repr, DecidableEq

/-- Insertion into a list sorted by descending event id, used to model the
`Sort("-_id")` order of the returned event window. -/
def insertDesc (e : CLEvent) : List CLEvent → List CLEvent
  | [] => [e]
  | x :: xs => if x.id ≤ e.id then e :: x :: xs else x :: insertDesc e xs

def sortDescById (l : List CLEvent) : List CLEvent :=
  l.foldr insertDesc []

theorem mem_insertDesc (a e : CLEvent) (l : List CLEvent) :
    a ∈ insertDesc e l ↔ a = e ∨ a ∈ l := by
  induction l with
  | nil => simp [insertDesc]
  | cons x xs ih =>
    simp only [insertDesc]
    split
    · simp
    · simp only [List.mem_cons, ih]
      tauto

theorem mem_sortDescById (a : CLEvent) (l : List CLEvent) :
    a ∈ sortDescById l ↔ a ∈ l := by
  induction l with
  | nil => simp [sortDescById]
  | cons x xs ih =>
    simp only [sortDescById, List.foldr] at *
    rw [mem_insertDesc, ih, List.mem_cons]

/-- Reply built by service.History once the target commit is resolved:
the boundary commit is the one with the greatest ObjectId smaller than the
target's ObjectId; the event window is bounded above by the target's event
pointer and below (strictly) by the boundary commit's pointer. -/
def historyReplyFor (st : CLState) (c : CLCommit) : HistoryReply :=
  match maxBy CLCommit.id (st.commits.filter (fun c2 => decide (c2.id < c.id))) with
  | none =>
    { commit := some
        { id := c.id, msg := c.msg, author := c.author, time := c.time,
          events := sortDescById (st.events.filter (fun e => decide (e.id ≤ c.event))) },
      next := none }
  | some p =>
    { commit := some
        { id := c.id, msg := c.msg, author := c.author, time := c.time,
          events := sortDescById (st.events.filter
            (fun e => decide (p.event < e.id) && decide (e.id ≤ c.event))) },
      next := some p.id }

/-- History translated from service.History.  An empty `commit` field
selects the latest commit and a project with no commits yields an empty
reply; a non-empty `commit` field goes through bson.ObjectIdHex, which
panics on malformed input, and otherwise the named commit must exist. -/
def historyOp (st : CLState) (req : HistoryRequest) : Except Err HistoryReply :=
  if req.project = "" then .error (.invalidArgument "project required")
  else if req.commit = "" then
    match maxBy CLCommit.id st.commits with
    | none => .ok { commit := none, next := none }
    | some c => .ok (historyReplyFor st c)
  else if isObjectIdHex req.commit then
    match st.commits.find? (fun c => c.id == hexVal req.commit) with
    | none => .error (.notFound "commit not found")
    | some c => .ok (historyReplyFor st c)
  else .error (.goPanic "invalid input to ObjectIdHex")

/-- Commit immediately preceding `c` in the chain: by the chain invariant
(parent = commit with the next-smaller id) this is the commit with the
greatest id strictly below `c.id`. -/
def precedes (st : CLState) (c p : CLCommit) : Prop :=
  p ∈ st.commits ∧ p.id < c.id ∧ ∀ c2 ∈ st.commits, c2.id < c.id → c2.id ≤ p.id

/-! ### Lemmas connecting the queries to the spec-side predicates -/

theorem isLatestCommit_of_maxBy (st : CLState) (l : CLCommit)
    (h : maxBy CLCommit.id st.commits = some l) : isLatestCommit st l :=
  ⟨maxBy_mem _ _ _ h, maxBy_ge _ _ _ h⟩

theorem latest_unique (st : CLState)
    (hnd : (st.commits.map CLCommit.id).Nodup) {a b : CLCommit}
    (ha : isLatestCommit st a) (hb : isLatestCommit st b) : a = b := by
  have hid : a.id = b.id :=
    Nat.le_antisymm (hb.2 a ha.1) (ha.2 b hb.1)
  exact List.inj_on_of_nodup_map hnd ha.1 hb.1 hid

theorem unsealed_iff_no_commits (st : CLState) (h : st.commits = [])
    (e : CLEvent) : unsealed st e ↔ e ∈ st.events := by
  unfold unsealed
  refine ⟨fun hu => hu.1, fun he => ⟨he, fun c hc => ?_⟩⟩
  exact absurd hc.1 (by simp [h])

theorem unsealed_iff_latest (st : CLState) (l : CLCommit)
    (hnd : (st.commits.map CLCommit.id).Nodup)
    (hl : isLatestCommit st l) (e : CLEvent) :
    unsealed st e ↔ e ∈ st.events ∧ l.event < e.id := by
  unfold unsealed
  constructor
  · rintro ⟨he, hall⟩
    exact ⟨he, hall l hl⟩
  · rintro ⟨he, hgt⟩
    refine ⟨he, fun c hc => ?_⟩
    rwa [latest_unique st hnd hc hl]

/-- Claim C1 --- Commit seals the newest unsealed event.  With a non-empty
project and message: when no event is newer than the latest commit's event
pointer (no event at all if there is no commit), `commitOp` fails
FailedPrecondition "nothing to commit"; otherwise it appends exactly one
commit whose parent is the latest commit's id (none when there is no prior
commit) and whose event pointer is the id of the newest such event. -/
theorem commit_seals_newest_unsealed (st : CLState) (freshId : Nat) (now : Int)
    (req : CommitRequest)
    (hp : req.project ≠ "") (hm : trimSpace req.msg ≠ "")
    (hnd : (st.commits.map CLCommit.id).Nodup) :
    ((∀ e, ¬ unsealed st e) →
      commitOp st freshId now req = .error (.failedPrecondition "nothing to commit")) ∧
    (∀ e, newestUnsealed st e →
      ∃ c, commitOp st freshId now req = .ok ({ st with commits := st.commits ++ [c] }, freshId) ∧
        c.event = e.id ∧
        (st.commits = [] → c.parent = none) ∧
        (∀ L, isLatestCommit st L → c.parent = some L.id)) := by
  unfold commitOp
  rw [if_neg hp, if_neg hm]
  rcases hcom : maxBy CLCommit.id st.commits with _ | l
  · -- no commits
    have hnil : st.commits = [] := (maxBy_eq_none_iff _ _).mp hcom
    simp only
    constructor
    · intro hno
      have : st.events = [] := by
        rw [List.eq_nil_iff_forall_not_mem]
        intro e he
        exact hno e ((unsealed_iff_no_commits st hnil e).mpr he)
      rw [this]
      rfl
    · intro e hne
      have he : e ∈ st.events := ((unsealed_iff_no_commits st hnil e).mp hne.1)
      obtain ⟨e2, he2⟩ := maxBy_isSome_of_ne_nil CLEvent.id st.events
        (by intro h; rw [h] at he; exact absurd he (List.not_mem_nil e))
      have heq : e2.id = e.id := by
        refine Nat.le_antisymm ?_ (maxBy_ge _ _ _ he2 e he)
        exact hne.2 e2 ((unsealed_iff_no_commits st hnil e2).mpr (maxBy_mem _ _ _ he2))
      rw [he2]
      refine ⟨_, rfl, heq, fun _ => rfl, fun L hL => ?_⟩
      exact absurd hL.1 (by simp [hnil])
  · -- there is a latest commit l
    have hl : isLatestCommit st l := isLatestCommit_of_maxBy st l hcom
    have hiff : ∀ e, unsealed st e ↔
        e ∈ st.events.filter (fun e => decide (l.event < e.id)) := by
      intro e
      rw [unsealed_iff_latest st l hnd hl e, List.mem_filter, decide_eq_true_eq]
    simp only
    constructor
    · intro hno
      have : st.events.filter (fun e => decide (l.event < e.id)) = [] := by
        rw [List.eq_nil_iff_forall_not_mem]
        intro e he
        exact hno e ((hiff e).mpr he)
      rw [this]
      rfl
    · intro e hne
      have he : e ∈ st.events.filter (fun e => decide (l.event < e.id)) :=
        (hiff e).mp hne.1
      obtain ⟨e2, he2⟩ := maxBy_isSome_of_ne_nil CLEvent.id
        (st.events.filter (fun e => decide (l.event < e.id)))
        (by intro h; rw [h] at he; exact absurd he (List.not_mem_nil e))
      have heq : e2.id = e.id := by
        refine Nat.le_antisymm ?_ (maxBy_ge _ _ _ he2 e he)
        exact hne.2 e2 ((hiff e2).mpr (maxBy_mem _ _ _ he2))
      rw [he2]
      refine ⟨_, rfl, heq, fun hnil => ?_, fun L hL => ?_⟩
      · exact absurd hl.1 (by simp [hnil])
      · have : L = l := latest_unique st hnd hL hl
        rw [this]

/-- Witness for C1 at a concrete state: one event (id 5) and no commit;
the newest unsealed event is event 5, and Commit appends a root commit
sealing it. -/
theorem commit_seals_newest_unsealed_witness :
    let e : CLEvent := { id := 5, time := 0, type := "project.created", author := "u", data := "" }
    let st : CLState := { events := [e], commits := [] }
    let req : CommitRequest := { project := "p", author := "u", msg := "init" }
    ∃ c, commitOp st 7 0 req = .ok ({ st with commits := st.commits ++ [c] }, 7) ∧
      c.event = 5 ∧ (st.commits = [] → c.parent = none) ∧
      (∀ L, isLatestCommit st L → c.parent = some L.id) := by
  intro e st req
  exact (commit_seals_newest_unsealed st 7 0 req (by decide) (by decide) (by decide)).2 e
    ⟨⟨by simp [st, e], fun c hc => absurd hc.1 (by simp [st])⟩,
     fun e2 he2 => by
      have := he2.1
      simp only [st, List.mem_singleton] at this
      simp [this, e]⟩

/-- Claim C10 --- History with a non-empty project and a non-empty
`after_commit` that is not a well-formed 24-character hex ObjectId reaches
the bson.ObjectIdHex call and panics rather than returning a typed error:
the panic branch is reachable for every such input. -/
theorem history_panics_on_malformed_commit (st : CLState) (req : HistoryRequest)
    (hp : req.project ≠ "") (hc : req.commit ≠ "")
    (hbad : isObjectIdHex req.commit = false) :
    historyOp st req = .error (.goPanic "invalid input to ObjectIdHex") := by
  unfold historyOp
  rw [if_neg hp, if_neg hc, hbad]
  rfl

/-- Witness for C10: the malformed commit id "xyz" on any state. -/
theorem history_panics_on_malformed_commit_witness :
    historyOp { events := [], commits := [] } { project := "p", commit := "xyz" } =
      .error (.goPanic "invalid input to ObjectIdHex") :=
  history_panics_on_malformed_commit _ _ (by decide) (by decide) (by decide)

/-- Resolution of find? by id under distinct ids. -/
theorem find?_id_eq (st : CLState) (C : CLCommit) (n : Nat)
    (hnd : (st.commits.map CLCommit.id).Nodup)
    (hmem : C ∈ st.commits) (hid : C.id = n) :
    st.commits.find? (fun c => c.id == n) = some C := by
  have hsome : (st.commits.find? (fun c => c.id == n)).isSome := by
    rw [List.find?_isSome]
    exact ⟨C, hmem, by simp [hid]⟩
  obtain ⟨y, hy⟩ := Option.isSome_iff_exists.mp hsome
  have hymem : y ∈ st.commits := List.mem_of_find?_eq_some hy
  have hyid : y.id = n := by
    have := List.find?_some hy
    simpa using this
  have : y = C := List.inj_on_of_nodup_map hnd hymem hmem (by rw [hyid, hid])
  rw [hy, this]

/-- Properties of the reply built for a resolved commit: the event window
is bounded by the preceding commit's event pointer (exclusive) and the
commit's own pointer (inclusive), all events when there is no preceding
commit; `next` is the preceding commit's id, none at the root. -/
theorem historyReplyFor_spec (st : CLState) (C : CLCommit)
    (hnd : (st.commits.map CLCommit.id).Nodup) :
    ∃ hcm, (historyReplyFor st C).commit = some hcm ∧
      hcm.id = C.id ∧ hcm.msg = C.msg ∧ hcm.author = C.author ∧ hcm.time = C.time ∧
      (∀ P, precedes st C P →
        ((∀ e, e ∈ hcm.events ↔ e ∈ st.events ∧ P.event < e.id ∧ e.id ≤ C.event) ∧
          (historyReplyFor st C).next = some P.id)) ∧
      ((¬ ∃ P ∈ st.commits, P.id < C.id) →
        ((∀ e, e ∈ hcm.events ↔ e ∈ st.events ∧ e.id ≤ C.event) ∧
          (historyReplyFor st C).next = none)) := by
  unfold historyReplyFor
  rcases hmax : maxBy CLCommit.id (st.commits.filter (fun c2 => decide (c2.id < C.id)))
      with _ | p
  · have hnil : st.commits.filter (fun c2 => decide (c2.id < C.id)) = [] :=
      (maxBy_eq_none_iff _ _).mp hmax
    refine ⟨_, rfl, rfl, rfl, rfl, rfl, ?_, ?_⟩
    · intro P hP
      exfalso
      have : P ∈ st.commits.filter (fun c2 => decide (c2.id < C.id)) := by
        rw [List.mem_filter, decide_eq_true_eq]
        exact ⟨hP.1, hP.2.1⟩
      rw [hnil] at this
      exact absurd this (List.not_mem_nil P)
    · intro _
      refine ⟨fun e => ?_, rfl⟩
      rw [mem_sortDescById, List.mem_filter, decide_eq_true_eq]
  · have hpmem : p ∈ st.commits ∧ p.id < C.id := by
      have := maxBy_mem _ _ _ hmax
      rw [List.mem_filter, decide_eq_true_eq] at this
      exact this
    have hpmax : ∀ c2 ∈ st.commits, c2.id < C.id → c2.id ≤ p.id := by
      intro c2 hc2 hlt
      exact maxBy_ge _ _ _ hmax c2 (by rw [List.mem_filter, decide_eq_true_eq]; exact ⟨hc2, hlt⟩)
    refine ⟨_, rfl, rfl, rfl, rfl, rfl, ?_, ?_⟩
    · intro P hP
      have hPp : P = p := by
        have h1 : P.id ≤ p.id := hpmax P hP.1 hP.2.1
        have h2 : p.id ≤ P.id := hP.2.2 p hpmem.1 hpmem.2
        exact List.inj_on_of_nodup_map hnd hP.1 hpmem.1 (Nat.le_antisymm h1 h2)
      subst hPp
      refine ⟨fun e => ?_, rfl⟩
      rw [mem_sortDescById, List.mem_filter, Bool.and_eq_true, decide_eq_true_eq,
        decide_eq_true_eq]
    · intro hno
      exact absurd ⟨p, hpmem.1, hpmem.2⟩ hno

/-- Claim C2 --- History returns, for the commit C named by `after_commit`
(the latest commit when `after_commit` is empty), C's metadata together
with exactly the events in the window bounded above by C's event pointer
(inclusive) and below (exclusive) by the event pointer of the commit P
immediately preceding C --- all events up to C's pointer when C has no
predecessor --- and `next` is P's id, none at the root. -/
theorem history_returns_window (st : CLState) (req : HistoryRequest) (C : CLCommit)
    (hp : req.project ≠ "")
    (hnd : (st.commits.map CLCommit.id).Nodup)
    (hC : (req.commit = "" ∧ isLatestCommit st C) ∨
          (req.commit ≠ "" ∧ isObjectIdHex req.commit = true ∧
            C ∈ st.commits ∧ C.id = hexVal req.commit)) :
    ∃ hcm, historyOp st req = .ok { commit := some hcm, next := (historyReplyFor st C).next } ∧
      hcm.id = C.id ∧ hcm.msg = C.msg ∧ hcm.author = C.author ∧ hcm.time = C.time ∧
      (∀ P, precedes st C P →
        ((∀ e, e ∈ hcm.events ↔ e ∈ st.events ∧ P.event < e.id ∧ e.id ≤ C.event) ∧
          (historyReplyFor st C).next = some P.id)) ∧
      ((¬ ∃ P ∈ st.commits, P.id < C.id) →
        ((∀ e, e ∈ hcm.events ↔ e ∈ st.events ∧ e.id ≤ C.event) ∧
          (historyReplyFor st C).next = none)) := by
  have hred : historyOp st req = .ok (historyReplyFor st C) := by
    unfold historyOp
    rw [if_neg hp]
    rcases hC with ⟨hempty, hlat⟩ | ⟨hne, hhex, hmem, hid⟩
    · rw [if_pos hempty]
      have hnenil : st.commits ≠ [] := by
        intro h
        have := hlat.1
        rw [h] at this
        exact absurd this (List.not_mem_nil C)
      obtain ⟨l, hl⟩ := maxBy_isSome_of_ne_nil CLCommit.id st.commits hnenil
      rw [hl]
      have : l = C := latest_unique st hnd (isLatestCommit_of_maxBy st l hl) hlat
      rw [this]
    · rw [if_neg hne, hhex]
      simp only [if_true]
      rw [find?_id_eq st C _ hnd hmem hid]
  obtain ⟨hcm, hcommit, h1, h2, h3, h4, h5, h6⟩ := historyReplyFor_spec st C hnd
  refine ⟨hcm, ?_, h1, h2, h3, h4, h5, h6⟩
  rw [hred]
  have : historyReplyFor st C = { commit := some hcm, next := (historyReplyFor st C).next } := by
    cases hrep : historyReplyFor st C
    rw [hrep] at hcommit
    simp at hcommit
    rw [hcommit]
  rw [← this]

/-- Witness for C2: two commits (ids 1 and 2, event pointers 10 and 20)
over events 5, 10, 15, 20; History with empty after_commit picks commit 2,
whose window is events 15 and 20 and whose next is commit 1. -/
theorem history_returns_window_witness :
    ∃ hcm, historyOp
        { events := [{ id := 5, time := 0, type := "t", author := "u", data := "" },
                     { id := 10, time := 0, type := "t", author := "u", data := "" },
                     { id := 15, time := 0, type := "t", author := "u", data := "" },
                     { id := 20, time := 0, type := "t", author := "u", data := "" }],
          commits := [{ id := 1, msg := "a", author := "u", time := 0, parent := none, event := 10 },
                      { id := 2, msg := "b", author := "u", time := 0, parent := some 1, event := 20 }] }
        { project := "p", commit := "" } =
      .ok { commit := some hcm,
            next := (historyReplyFor
              { events := [{ id := 5, time := 0, type := "t", author := "u", data := "" },
                           { id := 10, time := 0, type := "t", author := "u", data := "" },
                           { id := 15, time := 0, type := "t", author := "u", data := "" },
                           { id := 20, time := 0, type := "t", author := "u", data := "" }],
                commits := [{ id := 1, msg := "a", author := "u", time := 0, parent := none, event := 10 },
                            { id := 2, msg := "b", author := "u", time := 0, parent := some 1, event := 20 }] }
              { id := 2, msg := "b", author := "u", time := 0, parent := some 1, event := 20 }).next } ∧
      hcm.id = 2 ∧ hcm.msg = "b" := by
  obtain ⟨hcm, h, h1, h2, -, -, -, -⟩ := history_returns_window
    { events := [{ id := 5, time := 0, type := "t", author := "u", data := "" },
                 { id := 10, time := 0, type := "t", author := "u", data := "" },
                 { id := 15, time := 0, type := "t", author := "u", data := "" },
                 { id := 20, time := 0, type := "t", author := "u", data := "" }],
      commits := [{ id := 1, msg := "a", author := "u", time := 0, parent := none, event := 10 },
                  { id := 2, msg := "b", author := "u", time := 0, parent := some 1, event := 20 }] }
    { project := "p", commit := "" }
    { id := 2, msg := "b", author := "u", time := 0, parent := some 1, event := 20 }
    (by decide) (by decide)
    (Or.inl ⟨rfl, by constructor
                     · decide
                     · decide⟩)
  exact ⟨hcm, h, h1, h2⟩

/-! ## Project service: workflow graphs and diffs (src/project/validate.go)

A workflow graph is the node map parsed from the YAML source, a Go
`map[string]*Node`; it is modelled as an association list with distinct
keys (Go map keys are unique).  `project.Node` carries the declared
title, type string and input/output sets. -/

structure PNode where
  title : String
  type : String
  input : List String
  output : List String
  deriving Repr, DecidableEq

/-- Association-list form of `map[string]*Node`. -/
abbrev NodeMap := List (String × PNode)

structure NodeDiff where
  fromTitle : String
  toTitle : String
  /-- Keys are items, true means added, false means removed; the empty
  list models the nil map that DiffSlice returns when nothing differs. -/
  input : List (String × Bool)
  output : List (String × Bool)
  deriving Repr, DecidableEq

structure GraphDiff where
  added : NodeMap
  removed : NodeMap
  changed : List (String × NodeDiff)
  deriving Repr, DecidableEq

/-- DiffSlice translated from validate.go: items of `b` missing from `a`
map to true, items of `a` missing from `b` map to false; an empty result
stands for the nil map. -/
def DiffSlice (a b : List String) : List (String × Bool) :=
  (b.filter (fun bi => !(a.contains bi))).map (fun bi => (bi, true)) ++
  (a.filter (fun ai => !(b.contains ai))).map (fun ai => (ai, false))

/-- DiffNode translated from validate.go: FromTitle/ToTitle are set when
the titles differ, and the diff is dropped (nil) when FromTitle is empty
and both deltas are empty --- note the code tests `d.FromTitle != ""`, not
the titles themselves. -/
def DiffNode (a b : PNode) : Option NodeDiff :=
  if (if a.title = b.title then "" else a.title) ≠ "" ∨
      ¬ (DiffSlice a.input b.input).isEmpty ∨ ¬ (DiffSlice a.output b.output).isEmpty then
    some { fromTitle := if a.title = b.title then "" else a.title,
           toTitle := if a.title = b.title then "" else b.title,
           input := DiffSlice a.input b.input, output := DiffSlice a.output b.output }
  else none

/-- Changed entry produced for a key of `a` also present in `b` (the body
of the first loop of DiffGraph). -/
def changedEntry (b : NodeMap) (kv : String × PNode) : Option (String × NodeDiff) :=
  match b.lookup kv.1 with
  | none => none
  | some bn => (DiffNode kv.2 bn).map (fun d => (kv.1, d))

/-- DiffGraph translated from validate.go: removed and changed come from
walking `a`, added from walking `b`; nil when all three parts are empty. -/
def DiffGraph (a b : NodeMap) : Option GraphDiff :=
  if (b.filter (fun kv => (a.lookup kv.1).isNone)).isEmpty ∧
      (a.filter (fun kv => (b.lookup kv.1).isNone)).isEmpty ∧
      (a.filterMap (changedEntry b)).isEmpty then none
  else some { added := b.filter (fun kv => (a.lookup kv.1).isNone),
              removed := a.filter (fun kv => (b.lookup kv.1).isNone),
              changed := a.filterMap (changedEntry b) }

/-! ### Lemmas about lookup and DiffSlice -/

theorem lookup_isSome_of_mem {α β : Type} [BEq α] [LawfulBEq α]
    {k : α} {n : β} {l : List (α × β)} (h : (k, n) ∈ l) :
    (l.lookup k).isSome := by
  induction l with
  | nil => exact absurd h (List.not_mem_nil _)
  | cons kv tl ih =>
    rcases List.mem_cons.mp h with rfl | h2
    · simp [List.lookup]
    · rw [List.lookup]
      cases hbe : k == kv.1
      · simpa using ih h2
      · simp

theorem lookup_eq_of_mem_nodup {α β : Type} [BEq α] [LawfulBEq α]
    {k : α} {n : β} {l : List (α × β)}
    (hnd : (l.map Prod.fst).Nodup) (h : (k, n) ∈ l) :
    l.lookup k = some n := by
  induction l with
  | nil => exact absurd h (List.not_mem_nil _)
  | cons kv tl ih =>
    rw [List.map_cons, List.nodup_cons] at hnd
    rcases List.mem_cons.mp h with rfl | h2
    · simp [List.lookup]
    · rw [List.lookup]
      cases hbe : k == kv.1
      · simpa using ih hnd.2 h2
      · exfalso
        have hk : k = kv.1 := by simpa using hbe
        exact hnd.1 (by
          rw [← hk]
          exact List.mem_map.mpr ⟨(k, n), h2, rfl⟩)

theorem DiffSlice_self (x : List String) : DiffSlice x x = [] := by
  unfold DiffSlice
  have h : x.filter (fun i => !(x.contains i)) = [] := by
    rw [List.filter_eq_nil_iff]
    intro a ha
    simp [List.elem_iff, ha, List.contains]
  rw [h]
  simp

theorem DiffSlice_eq_nil_iff (a b : List String) :
    DiffSlice a b = [] ↔ (∀ x, x ∈ a ↔ x ∈ b) := by
  unfold DiffSlice
  rw [List.append_eq_nil, List.map_eq_nil_iff, List.map_eq_nil_iff,
    List.filter_eq_nil_iff, List.filter_eq_nil_iff]
  constructor
  · rintro ⟨hb, ha⟩ x
    constructor
    · intro hxa
      have := ha x hxa
      simp only [Bool.not_eq_true, Bool.not_eq_false] at this
      exact List.elem_iff.mp (by simpa [List.contains] using this)
    · intro hxb
      have := hb x hxb
      simp only [Bool.not_eq_true, Bool.not_eq_false] at this
      exact List.elem_iff.mp (by simpa [List.contains] using this)
  · intro h
    constructor
    · intro x hxb
      have hm : x ∈ a := (h x).mpr hxb
      simp [List.contains, List.elem_iff, hm]
    · intro x hxa
      have hm : x ∈ b := (h x).mp hxa
      simp [List.contains, List.elem_iff, hm]

theorem DiffNode_self (n : PNode) : DiffNode n n = none := by
  unfold DiffNode
  simp [DiffSlice_self]

/-- DiffGraph of a graph with itself is empty (nil). -/
theorem DiffGraph_self (g : NodeMap) (hnd : (g.map Prod.fst).Nodup) :
    DiffGraph g g = none := by
  unfold DiffGraph
  have hrem : g.filter (fun kv => (g.lookup kv.1).isNone) = [] := by
    rw [List.filter_eq_nil_iff]
    intro kv hkv
    have hs := lookup_isSome_of_mem (k := kv.1) (n := kv.2) (l := g) (by simpa using hkv)
    simp only [Bool.not_eq_true, Option.isNone_eq_false_iff]
    exact hs
  have hchg : g.filterMap (changedEntry g) = [] := by
    rw [List.filterMap_eq_nil_iff]
    intro kv hkv
    have hl : g.lookup kv.1 = some kv.2 :=
      lookup_eq_of_mem_nodup hnd (by simpa using hkv)
    unfold changedEntry
    rw [hl]
    simp [DiffNode_self]
  rw [hrem, hchg]
  simp

/-! ## Workflow update and event emission (service.UpdateWorkflow)

Events published on `events.project`, one per atomic diff item, with the
payload fields the node projection consumes.  Within one UpdateWorkflow
call the emission order is added nodes, removed nodes, changed nodes, and
for a changed node: rename (only when ToTitle is non-empty), then input
deltas, then output deltas. -/

inductive WfEvent where
  | nodeAdded (workflow key type title : String) (input output : List String)
  | nodeRemoved (workflow key type title : String) (input output : List String)
  | nodeRenamed (workflow key fromTitle toTitle : String)
  | nodeInputAdded (workflow key item : String)
  | nodeInputRemoved (workflow key item : String)
  | nodeOutputAdded (workflow key item : String)
  | nodeOutputRemoved (workflow key item : String)
  deriving Repr, DecidableEq

/-- Events emitted for one changed node: rename first (only when ToTitle
is non-empty), then one event per input delta, then one per output
delta. -/
def nodeChangeEvents (wid : String) (kd : String × NodeDiff) : List WfEvent :=
  (if kd.2.toTitle ≠ "" then [WfEvent.nodeRenamed wid kd.1 kd.2.fromTitle kd.2.toTitle] else []) ++
  kd.2.input.map (fun ib =>
    if ib.2 then WfEvent.nodeInputAdded wid kd.1 ib.1 else WfEvent.nodeInputRemoved wid kd.1 ib.1) ++
  kd.2.output.map (fun ib =>
    if ib.2 then WfEvent.nodeOutputAdded wid kd.1 ib.1 else WfEvent.nodeOutputRemoved wid kd.1 ib.1)

def eventsOfDiff (wid : String) (gd : GraphDiff) : List WfEvent :=
  gd.added.map (fun kv => .nodeAdded wid kv.1 kv.2.type kv.2.title kv.2.input kv.2.output) ++
  gd.removed.map (fun kv => .nodeRemoved wid kv.1 kv.2.type kv.2.title kv.2.input kv.2.output) ++
  gd.changed.flatMap (nodeChangeEvents wid)

/-- Stored workflow revision (project document's `workflows` array). -/
structure Workflow where
  id : String
  source : String
  nodes : NodeMap
  deriving Repr, DecidableEq

/-- UpdateWorkflow translated from the project service, applied to the
revisions of one project.  ParseSource (yaml.Unmarshal) is deterministic,
so the operation is modelled on the parsed graph `g` of the request's
source; GetProject yields the last stored revision's node map (empty when
the project has no revision yet).  An empty diff fails FailedPrecondition
and publishes nothing; otherwise the new revision is appended and one
event per diff item is published. -/
def updateWorkflowParsed (wfs : List Workflow) (g : NodeMap) (wid src : String) :
    Except Err (List Workflow × List WfEvent) :=
  let cur : NodeMap := match wfs.getLast? with
    | none => []
    | some w => w.nodes
  match DiffGraph cur g with
  | none => .error (.failedPrecondition "nothing changed")
  | some gd => .ok (wfs ++ [{ id := wid, source := src, nodes := g }], eventsOfDiff wid gd)

/-- Claim C5 --- updating a workflow twice with the same source fails the
second time: DiffGraph of any graph with itself is empty, and
UpdateWorkflow on a project whose last stored revision holds exactly the
parsed node map of the request's source fails FailedPrecondition
"nothing changed" and publishes no events. -/
theorem update_workflow_idempotent :
    (∀ g : NodeMap, (g.map Prod.fst).Nodup → DiffGraph g g = none) ∧
    (∀ (wfs : List Workflow) (w : Workflow) (g : NodeMap) (wid src : String),
      (g.map Prod.fst).Nodup → wfs.getLast? = some w → w.nodes = g →
      updateWorkflowParsed wfs g wid src = .error (.failedPrecondition "nothing changed")) := by
  constructor
  · exact DiffGraph_self
  · intro wfs w g wid src hnd hlast hn
    unfold updateWorkflowParsed
    rw [hlast]
    simp only [hn, DiffGraph_self g hnd]

/-- Witness for C5: a single stored revision with one node; the repeated
update fails. -/
theorem update_workflow_idempotent_witness :
    DiffGraph [("a", { title := "A", type := "data", input := [], output := ["x"] })]
      [("a", { title := "A", type := "data", input := [], output := ["x"] })] = none ∧
    updateWorkflowParsed
      [{ id := "w1", source := "s",
         nodes := [("a", { title := "A", type := "data", input := [], output := ["x"] })] }]
      [("a", { title := "A", type := "data", input := [], output := ["x"] })] "w2" "s" =
      .error (.failedPrecondition "nothing changed") :=
  ⟨update_workflow_idempotent.1 _ (by decide),
   update_workflow_idempotent.2 _ _ _ "w2" "s" (by decide) rfl rfl⟩

/-- Claim C6 (counterexample) --- DiffNode does not report the node
unchanged exactly when the titles agree and the deltas are empty: with an
empty old title and a changed new title it returns nil although the titles
differ (the code tests FromTitle, which is empty here). -/
theorem DiffNode_empty_title_counterexample :
    DiffNode { title := "", type := "data", input := [], output := [] }
      { title := "X", type := "data", input := [], output := [] } = none ∧
    ("" : String) ≠ "X" := by
  constructor
  · rfl
  · decide

/-- Characterization of the nil case of DiffNode, as the code computes
it: nil exactly when FromTitle would be empty (titles equal or old title
empty) and both deltas are empty. -/
theorem DiffNode_eq_none_iff (a b : PNode) :
    DiffNode a b = none ↔ ((a.title = b.title ∨ a.title = "") ∧
      DiffSlice a.input b.input = [] ∧ DiffSlice a.output b.output = []) := by
  by_cases heq : a.title = b.title
  · by_cases hi : DiffSlice a.input b.input = []
    · by_cases ho : DiffSlice a.output b.output = []
      · simp [DiffNode, heq, hi, ho, List.isEmpty_iff]
      · simp [DiffNode, heq, hi, ho, List.isEmpty_iff]
    · simp [DiffNode, heq, hi, List.isEmpty_iff]
  · by_cases hA : a.title = ""
    · by_cases hi : DiffSlice a.input b.input = []
      · by_cases ho : DiffSlice a.output b.output = []
        · simp [DiffNode, heq, hA, hi, ho, List.isEmpty_iff]
        · simp [DiffNode, heq, hA, hi, ho, List.isEmpty_iff]
      · simp [DiffNode, heq, hA, hi, List.isEmpty_iff]
    · simp [DiffNode, heq, hA, List.isEmpty_iff]

/-- Claim C6 (amended) --- DiffNode returns nil exactly when both deltas
are empty and the titles are equal OR the old title is empty; whenever it
does return a diff for nodes with differing titles, FromTitle and ToTitle
are the old and new titles. -/
theorem DiffNode_spec (a b : PNode) :
    (DiffNode a b = none ↔ ((a.title = b.title ∨ a.title = "") ∧
      (∀ x, x ∈ a.input ↔ x ∈ b.input) ∧ (∀ x, x ∈ a.output ↔ x ∈ b.output))) ∧
    (a.title ≠ b.title → ∀ d, DiffNode a b = some d →
      d.fromTitle = a.title ∧ d.toTitle = b.title) := by
  constructor
  · rw [DiffNode_eq_none_iff]
    constructor
    · rintro ⟨h1, h2, h3⟩
      exact ⟨h1, (DiffSlice_eq_nil_iff _ _).mp h2, (DiffSlice_eq_nil_iff _ _).mp h3⟩
    · rintro ⟨h1, h2, h3⟩
      exact ⟨h1, (DiffSlice_eq_nil_iff _ _).mpr h2, (DiffSlice_eq_nil_iff _ _).mpr h3⟩
  · intro hne d hd
    simp only [DiffNode, if_neg hne] at hd
    split at hd
    · injection hd with hd
      subst hd
      exact ⟨rfl, rfl⟩
    · exact absurd hd (by simp)

/-- Witness for C6: nodes titled "A" and "B"; the diff records both
titles. -/
theorem DiffNode_spec_witness :
    ({ fromTitle := "A", toTitle := "B", input := [], output := [] } : NodeDiff).fromTitle =
      ({ title := "A", type := "data", input := [], output := [] } : PNode).title ∧
    ({ fromTitle := "A", toTitle := "B", input := [], output := [] } : NodeDiff).toTitle =
      ({ title := "B", type := "data", input := [], output := [] } : PNode).title :=
  (DiffNode_spec { title := "A", type := "data", input := [], output := [] }
    { title := "B", type := "data", input := [], output := [] }).2 (by decide) _ rfl

/-! ## Node projection service (src/nodes/service.go)

The node table is one document collection per project keyed by the node
key; it is modelled as a list of node records tagged with their project.
NodeType is the proto enum; `decodeType` maps the event's type string
through NodeType_value after upper-casing, unknown strings map to
UNKNOWN. -/

inductive NodeType where
  | UNKNOWN
  | DATA
  | COMPUTE
  | MANUAL
  | FINDING
  deriving Repr, DecidableEq

/-- Model of strings.ToUpper restricted to ASCII (node type names are
ASCII). -/
def asciiToUpper (s : String) : String :=
  ⟨s.data.map Char.toUpper⟩

def decodeType (s : String) : NodeType :=
  match asciiToUpper s with
  | "UNKNOWN" => .UNKNOWN
  | "DATA" => .DATA
  | "COMPUTE" => .COMPUTE
  | "MANUAL" => .MANUAL
  | "FINDING" => .FINDING
  | _ => .UNKNOWN

structure NFile where
  id : String
  name : String
  deriving Repr, DecidableEq

structure NNode where
  id : String
  project : String
  type : NodeType
  title : String
  notes : String
  files : List NFile
  created : Int
  modified : Int
  deriving Repr, DecidableEq

abbrev NodesState := List NNode

/-- FindId within the project's collection. -/
def lookupNode (st : NodesState) (project id : String) : Option NNode :=
  st.find? (fun n => n.project == project && n.id == id)

/-- nodeHasIdent translated from the service: both identifiers non-blank
after trimming. -/
def nodeHasIdent (id project : String) : Bool :=
  trimSpace id != "" && trimSpace project != ""

structure CreateRequest where
  id : String
  project : String
  type : NodeType
  title : String
  account : String

structure SetTitleRequest where
  id : String
  project : String
  title : String
  account : String

structure RemoveFilesRequest where
  id : String
  project : String
  account : String
  fileIds : List String

/-- Create translated from service.Create: blank identity or UNKNOWN type
fail InvalidArgument; a duplicate insert fails AlreadyExists; otherwise
the node record is inserted with empty notes and files. -/
def createOp (st : NodesState) (now : Int) (req : CreateRequest) : Except Err NodesState :=
  if ¬ nodeHasIdent req.id req.project then
    .error (.invalidArgument "project and id required")
  else if req.type = .UNKNOWN then
    .error (.invalidArgument "type is required")
  else if (lookupNode st req.project req.id).isSome then
    .error (.alreadyExists "node already exists")
  else
    .ok (st ++ [{ id := req.id, project := req.project, type := req.type, title := req.title,
                  notes := "", files := [], created := now, modified := 0 }])

/-- SetTitle translated from service.SetTitle: UpdateId sets the title and
the modified time of the matching record, NotFound when it is missing. -/
def setTitleOp (st : NodesState) (now : Int) (req : SetTitleRequest) : Except Err NodesState :=
  if ¬ nodeHasIdent req.id req.project then
    .error (.invalidArgument "project and id required")
  else if (lookupNode st req.project req.id).isNone then
    .error (.notFound "node does not exist")
  else
    .ok (st.map (fun n =>
      if n.project == req.project && n.id == req.id then
        { n with title := req.title, modified := now }
      else n))

/-- RemoveFiles translated from service.RemoveFiles: after the identity
and non-empty checks the node is fetched (a missing node surfaces the raw
datastore error), every requested id must be present among the node's file
references or the call fails NotFound naming the first missing id, and
then a $pull removes the references whose id is in the request list. -/
def removeFilesOp (st : NodesState) (now : Int) (req : RemoveFilesRequest) :
    Except Err NodesState :=
  if ¬ nodeHasIdent req.id req.project then
    .error (.invalidArgument "project and id required")
  else if req.fileIds.isEmpty then
    .error (.invalidArgument "no files specified")
  else
    match lookupNode st req.project req.id with
    | none => .error (.dbError "not found")
    | some n =>
      match req.fileIds.find? (fun fid => !((n.files.map NFile.id).contains fid)) with
      | some fid => .error (.notFound ("file `" ++ fid ++ "` does not exist"))
      | none =>
        .ok (st.map (fun m =>
          if m.project == req.project && m.id == req.id then
            { m with files := m.files.filter (fun f => !(req.fileIds.contains f.id)),
                     modified := now }
          else m))

/-- Event consumer translated from nodes.newEventHandler: node.added
events call Create with the decoded type, node.renamed events call
SetTitle with the new title, all other events are ignored.  The error of
the inner call is returned from the handler unchanged (`return nil, err`). -/
def handleEvent (st : NodesState) (now : Int) (project : String) (e : WfEvent) :
    Except Err NodesState :=
  match e with
  | .nodeAdded _ key type title _ _ =>
      createOp st now { id := key, project := project, type := decodeType type,
                        title := title, account := "" }
  | .nodeRenamed _ key _ toTitle =>
      setTitleOp st now { id := key, project := project, title := toTitle, account := "" }
  | _ => .ok st

/-- State transition induced by a delivered event: a handler error is
logged by the transport and leaves the node table unchanged. -/
def applyEvent (st : NodesState) (now : Int) (project : String) (e : WfEvent) : NodesState :=
  match handleEvent st now project e with
  | .ok st2 => st2
  | .error _ => st

def applyEvents (st : NodesState) (now : Int) (project : String) (evs : List WfEvent) :
    NodesState :=
  evs.foldl (fun s e => applyEvent s now project e) st

/-- Claim C4 (counterexample) --- a node.added event for an existing
(project, key) does NOT make the handler return success: newEventHandler
returns the AlreadyExists error produced by Create (the code is
`return nil, err`), so "the handler returns no error" fails. -/
theorem handle_node_added_existing_counterexample :
    handleEvent
      [{ id := "a", project := "p", type := .DATA, title := "A", notes := "",
         files := [], created := 0, modified := 0 }] 0 "p"
      (.nodeAdded "w1" "a" "data" "A" [] []) =
      .error (.alreadyExists "node already exists") := rfl

/-- Claim C4 (amended) --- on a node.added event whose (project, key)
already exists (with a well-formed key and a recognized type), the handler
returns the AlreadyExists error from Create rather than success; the node
table is left unchanged, so replay is idempotent in effect even though the
error is propagated to the transport. -/
theorem handle_node_added_existing (st : NodesState) (now : Int)
    (project w key t title : String) (inp outp : List String)
    (hident : nodeHasIdent key project = true)
    (ht : decodeType t ≠ .UNKNOWN)
    (hex : (lookupNode st project key).isSome) :
    handleEvent st now project (.nodeAdded w key t title inp outp) =
      .error (.alreadyExists "node already exists") ∧
    applyEvent st now project (.nodeAdded w key t title inp outp) = st := by
  have h : handleEvent st now project (.nodeAdded w key t title inp outp) =
      .error (.alreadyExists "node already exists") := by
    simp only [handleEvent, createOp]
    rw [if_neg (by simp [hident]), if_neg ht, if_pos hex]
  refine ⟨h, ?_⟩
  unfold applyEvent
  rw [h]

/-- Witness for C4 at a concrete table holding node (p, a). -/
theorem handle_node_added_existing_witness :
    handleEvent
      [{ id := "a", project := "p", type := .MANUAL, title := "old", notes := "n",
         files := [], created := 3, modified := 4 }] 9 "p"
      (.nodeAdded "w2" "a" "manual" "new" [] []) =
      .error (.alreadyExists "node already exists") ∧
    applyEvent
      [{ id := "a", project := "p", type := .MANUAL, title := "old", notes := "n",
         files := [], created := 3, modified := 4 }] 9 "p"
      (.nodeAdded "w2" "a" "manual" "new" [] []) =
      [{ id := "a", project := "p", type := .MANUAL, title := "old", notes := "n",
         files := [], created := 3, modified := 4 }] :=
  handle_node_added_existing _ 9 "p" "w2" "a" "manual" "new" [] []
    (by decide) (by decide) (by decide)

/-- Searching a list mapped by a function that preserves the predicate. -/
theorem find?_map_pred {α : Type} (st : List α) (f : α → α) (p : α → Bool)
    (hf : ∀ n, p (f n) = p n) :
    (st.map f).find? p = (st.find? p).map f := by
  induction st with
  | nil => rfl
  | cons a tl ih =>
    simp only [List.map_cons, List.find?]
    rw [hf a]
    cases hpa : p a <;> simp [ih]

/-- Claim C8 --- RemoveFiles on an existing node: if any requested file id
is absent from the node's references the call fails NotFound (naming the
first missing id) and no update happens; if every requested id is present
the call succeeds and the node's reference list becomes exactly the
references whose id was not requested, in their original order, with all
other node fields intact. -/
theorem removeFiles_spec (st : NodesState) (now : Int) (req : RemoveFilesRequest)
    (n : NNode)
    (hident : nodeHasIdent req.id req.project = true)
    (hne : req.fileIds ≠ [])
    (hfind : lookupNode st req.project req.id = some n) :
    ((∃ fid ∈ req.fileIds, fid ∉ n.files.map NFile.id) →
      ∃ fid, fid ∈ req.fileIds ∧ fid ∉ n.files.map NFile.id ∧
        removeFilesOp st now req = .error (.notFound ("file `" ++ fid ++ "` does not exist"))) ∧
    ((∀ fid ∈ req.fileIds, fid ∈ n.files.map NFile.id) →
      ∃ st2, removeFilesOp st now req = .ok st2 ∧
        ∃ n2, lookupNode st2 req.project req.id = some n2 ∧
          n2.files.Sublist n.files ∧
          (∀ f, f ∈ n2.files ↔ f ∈ n.files ∧ f.id ∉ req.fileIds) ∧
          n2.id = n.id ∧ n2.project = n.project ∧ n2.type = n.type ∧
          n2.title = n.title ∧ n2.notes = n.notes) := by
  have hid : ¬ ¬ nodeHasIdent req.id req.project = true := by simp [hident]
  have hemp : ¬ req.fileIds.isEmpty = true := by
    simp only [List.isEmpty_iff]
    exact hne
  constructor
  · rintro ⟨fid, hmem, habs⟩
    have hsome : (req.fileIds.find?
        (fun fid => !((n.files.map NFile.id).contains fid))).isSome := by
      rw [List.find?_isSome]
      refine ⟨fid, hmem, ?_⟩
      simp only [Bool.not_eq_true', ← Bool.not_eq_true]
      intro hc
      exact habs (List.elem_iff.mp hc)
    obtain ⟨fid0, hf0⟩ := Option.isSome_iff_exists.mp hsome
    refine ⟨fid0, List.mem_of_find?_eq_some hf0, ?_, ?_⟩
    · have hcont := List.find?_some hf0
      simp only [Bool.not_eq_true'] at hcont
      intro hc
      have hcont2 : (n.files.map NFile.id).contains fid0 = true := List.elem_iff.mpr hc
      rw [hcont2] at hcont
      cases hcont
    · unfold removeFilesOp
      rw [if_neg hid, if_neg hemp, hfind]
      simp only [hf0]
  · intro hall
    have hnone : req.fileIds.find?
        (fun fid => !((n.files.map NFile.id).contains fid)) = none := by
      rw [List.find?_eq_none]
      intro fid hmem
      simp only [Bool.not_eq_true', Bool.not_eq_true]
      simp [List.contains, List.elem_iff, hall fid hmem]
    have hstep : removeFilesOp st now req = .ok (st.map (fun m =>
        if m.project == req.project && m.id == req.id then
          { m with files := m.files.filter (fun f => !(req.fileIds.contains f.id)),
                   modified := now }
        else m)) := by
      unfold removeFilesOp
      rw [if_neg hid, if_neg hemp, hfind]
      simp only [hnone]
    refine ⟨_, hstep, ?_⟩
    have hpred : ∀ m : NNode,
        (fun nn : NNode => nn.project == req.project && nn.id == req.id)
          ((fun m : NNode => if m.project == req.project && m.id == req.id then
            { m with files := m.files.filter (fun f => !(req.fileIds.contains f.id)),
                     modified := now } else m) m) =
        (fun nn : NNode => nn.project == req.project && nn.id == req.id) m := by
      intro m
      by_cases hm : (m.project == req.project && m.id == req.id) = true
      · simp [hm]
      · simp [hm]
    have hn : (n.project == req.project && n.id == req.id) = true := by
      have := List.find?_some hfind
      exact this
    have hlook : lookupNode (st.map (fun m =>
        if m.project == req.project && m.id == req.id then
          { m with files := m.files.filter (fun f => !(req.fileIds.contains f.id)),
                   modified := now }
        else m)) req.project req.id =
        some ({ n with files := n.files.filter (fun f => !(req.fileIds.contains f.id)),
                       modified := now }) := by
      unfold lookupNode
      unfold lookupNode at hfind
      rw [find?_map_pred st
        (fun m : NNode => if m.project == req.project && m.id == req.id then
          { m with files := m.files.filter (fun f => !(req.fileIds.contains f.id)),
                   modified := now } else m)
        (fun nn : NNode => nn.project == req.project && nn.id == req.id) hpred, hfind]
      simp only [Option.map_some']
      rw [if_pos hn]
    refine ⟨_, hlook, List.filter_sublist _, fun f => ?_, rfl, rfl, rfl, rfl, rfl⟩
    simp only [List.mem_filter, Bool.not_eq_true', and_congr_right_iff]
    intro _
    constructor
    · intro hc hmem
      have hc2 : req.fileIds.contains f.id = true := List.elem_iff.mpr hmem
      rw [hc2] at hc
      cases hc
    · intro hnm
      simp only [← Bool.not_eq_true]
      intro hc
      exact hnm (List.elem_iff.mp hc)

/-- Witness for C8: removing file f1 from a node holding f1 and f2 leaves
exactly f2. -/
theorem removeFiles_spec_witness :
    ∃ st2, removeFilesOp
        [{ id := "a", project := "p", type := .DATA, title := "T", notes := "",
           files := [{ id := "f1", name := "one" }, { id := "f2", name := "two" }],
           created := 0, modified := 0 }] 5
        { id := "a", project := "p", account := "u", fileIds := ["f1"] } = .ok st2 ∧
      ∃ n2, lookupNode st2 "p" "a" = some n2 ∧
        (∀ f, f ∈ n2.files ↔
          f ∈ [({ id := "f1", name := "one" } : NFile), { id := "f2", name := "two" }] ∧
          f.id ∉ ["f1"]) := by
  obtain ⟨st2, hok, n2, hl, -, hmem, -, -, -, -, -⟩ :=
    (removeFiles_spec
      [{ id := "a", project := "p", type := .DATA, title := "T", notes := "",
         files := [{ id := "f1", name := "one" }, { id := "f2", name := "two" }],
         created := 0, modified := 0 }] 5
      { id := "a", project := "p", account := "u", fileIds := ["f1"] }
      { id := "a", project := "p", type := .DATA, title := "T", notes := "",
        files := [{ id := "f1", name := "one" }, { id := "f2", name := "two" }],
        created := 0, modified := 0 }
      (by decide) (by decide) rfl).2 (by decide)
  exact ⟨st2, hok, n2, hl, hmem⟩

/-! ## Event-driven node projection: per-key analysis (claims C3/C4)

Each event touches at most the node whose key it names, so the effect of a
batch of UpdateWorkflow events on one key is the fold of a key-local
transition over the events naming that key. -/

def evKey : WfEvent → String
  | .nodeAdded _ k _ _ _ _ => k
  | .nodeRemoved _ k _ _ _ _ => k
  | .nodeRenamed _ k _ _ => k
  | .nodeInputAdded _ k _ => k
  | .nodeInputRemoved _ k _ => k
  | .nodeOutputAdded _ k _ => k
  | .nodeOutputRemoved _ k _ => k

/-- Key-local transition of the projection consumer: node.added creates
the entry when absent (and the identity is well-formed and the type
decodes to a known value), node.renamed retitles an existing entry, and
every other event (including errors, which the transport only logs)
leaves the entry as is. -/
def keyEffect (now : Int) (project : String) (e : WfEvent) (cur : Option NNode) : Option NNode :=
  match e with
  | .nodeAdded _ key t title _ _ =>
      match cur with
      | some n => some n
      | none =>
        if nodeHasIdent key project ∧ decodeType t ≠ .UNKNOWN then
          some { id := key, project := project, type := decodeType t, title := title,
                 notes := "", files := [], created := now, modified := 0 }
        else none
  | .nodeRenamed _ key _ toTitle =>
      match cur with
      | some n =>
        if nodeHasIdent key project then some { n with title := toTitle, modified := now }
        else some n
      | none => none
  | _ => cur

theorem lookupNode_append_single (st : NodesState) (nw : NNode) (project k : String) :
    lookupNode (st ++ [nw]) project k =
      ((lookupNode st project k).or
        (if nw.project == project && nw.id == k then some nw else none)) := by
  unfold lookupNode
  rw [List.find?_append]
  cases h : List.find? (fun n => n.project == project && n.id == k) [nw] <;>
    simp only [List.find?] at h
  · split at h
    · cases h
    · rename_i hc
      rw [if_neg (by simp [hc]), h]
  · split at h
    · rename_i hc
      rw [if_pos hc, h]
    · cases h

theorem lookupNode_map_upd (st : NodesState) (project key k : String) (upd : NNode → NNode)
    (hupd : ∀ n, (upd n).project = n.project ∧ (upd n).id = n.id) :
    lookupNode (st.map (fun n => if n.project == project && n.id == key then upd n else n))
        project k =
      (lookupNode st project k).map
        (fun n => if n.project == project && n.id == key then upd n else n) := by
  unfold lookupNode
  apply find?_map_pred
  intro n
  by_cases hm : (n.project == project && n.id == key) = true
  · simp [hm, (hupd n).1, (hupd n).2]
  · simp [hm]

/-- One delivered event only affects the table entry of the key it names,
and does so according to the key-local transition. -/
theorem lookupNode_applyEvent (st : NodesState) (now : Int) (project k : String) (e : WfEvent) :
    lookupNode (applyEvent st now project e) project k =
      if evKey e = k then keyEffect now project e (lookupNode st project k)
      else lookupNode st project k := by
  cases e with
  | nodeAdded w key t title inp outp =>
    by_cases hident : nodeHasIdent key project = true
    · by_cases htype : decodeType t = .UNKNOWN
      · have herr : handleEvent st now project (.nodeAdded w key t title inp outp) =
            .error (.invalidArgument "type is required") := by
          simp only [handleEvent, createOp]
          rw [if_neg (by simp [hident]), if_pos htype]
        simp only [applyEvent, herr, evKey, keyEffect]
        by_cases hk : key = k
        · rw [if_pos hk]
          subst hk
          cases hcur : lookupNode st project key
          · rw [if_neg (by simp [htype])]
          · rfl
        · rw [if_neg hk]
      · by_cases hex : (lookupNode st project key).isSome
        · have herr : handleEvent st now project (.nodeAdded w key t title inp outp) =
              .error (.alreadyExists "node already exists") := by
            simp only [handleEvent, createOp]
            rw [if_neg (by simp [hident]), if_neg htype, if_pos hex]
          simp only [applyEvent, herr, evKey, keyEffect]
          by_cases hk : key = k
          · rw [if_pos hk]
            subst hk
            obtain ⟨n, hn⟩ := Option.isSome_iff_exists.mp hex
            rw [hn]
          · rw [if_neg hk]
        · have hok : handleEvent st now project (.nodeAdded w key t title inp outp) =
              .ok (st ++ [{ id := key, project := project, type := decodeType t, title := title,
                            notes := "", files := [], created := now, modified := 0 }]) := by
            simp only [handleEvent, createOp]
            rw [if_neg (by simp [hident]), if_neg htype, if_neg hex]
          simp only [applyEvent, hok, evKey, keyEffect]
          rw [lookupNode_append_single]
          by_cases hk : key = k
          · rw [if_pos hk]
            subst hk
            rw [Option.not_isSome_iff_eq_none.mp hex, Option.none_or]
            rw [if_pos (by simp), if_pos ⟨hident, htype⟩]
          · rw [if_neg hk]
            rw [if_neg (by simp [hk]), Option.or_none]
    · have herr : handleEvent st now project (.nodeAdded w key t title inp outp) =
          .error (.invalidArgument "project and id required") := by
        simp only [handleEvent, createOp]
        rw [if_pos (by simp [hident])]
      simp only [applyEvent, herr, evKey, keyEffect]
      by_cases hk : key = k
      · rw [if_pos hk]
        subst hk
        cases hcur : lookupNode st project key
        · rw [if_neg (by simp [hident])]
        · rfl
      · rw [if_neg hk]
  | nodeRenamed w key fromT toT =>
    by_cases hident : nodeHasIdent key project = true
    · by_cases hex : (lookupNode st project key).isNone
      · have herr : handleEvent st now project (.nodeRenamed w key fromT toT) =
            .error (.notFound "node does not exist") := by
          simp only [handleEvent, setTitleOp]
          rw [if_neg (by simp [hident]), if_pos hex]
        simp only [applyEvent, herr, evKey, keyEffect]
        by_cases hk : key = k
        · rw [if_pos hk]
          subst hk
          rw [Option.isNone_iff_eq_none.mp hex]
        · rw [if_neg hk]
      · have hok : handleEvent st now project (.nodeRenamed w key fromT toT) =
            .ok (st.map (fun n =>
              if n.project == project && n.id == key then
                { n with title := toT, modified := now }
              else n)) := by
          simp only [handleEvent, setTitleOp]
          rw [if_neg (by simp [hident]), if_neg hex]
        simp only [applyEvent, hok, evKey, keyEffect]
        rw [lookupNode_map_upd st project key k
          (fun n => { n with title := toT, modified := now }) (fun n => ⟨rfl, rfl⟩)]
        by_cases hk : key = k
        · rw [if_pos hk]
          subst hk
          have hsome : (lookupNode st project key).isSome :=
            Option.ne_none_iff_isSome.mp (fun h => hex (Option.isNone_iff_eq_none.mpr h))
          obtain ⟨n, hn⟩ := Option.isSome_iff_exists.mp hsome
          have hp := List.find?_some hn
          rw [hn]
          simp only [Option.map_some']
          rw [if_pos hp]
          simp [hident]
        · rw [if_neg hk]
          rcases ho : lookupNode st project k with _ | m
          · rfl
          · have hp := List.find?_some ho
            have hcond : ¬ ((m.project == project && m.id == key) = true) := by
              simp only [Bool.and_eq_true, beq_iff_eq] at hp ⊢
              rintro ⟨-, h2⟩
              exact hk (h2 ▸ hp.2)
            rw [Option.map_some', if_neg hcond]
    · have herr : handleEvent st now project (.nodeRenamed w key fromT toT) =
          .error (.invalidArgument "project and id required") := by
        simp only [handleEvent, setTitleOp]
        rw [if_pos (by simp [hident])]
      simp only [applyEvent, herr, evKey, keyEffect]
      by_cases hk : key = k
      · rw [if_pos hk]
        subst hk
        cases hcur : lookupNode st project key
        · rfl
        · simp [hident]
      · rw [if_neg hk]
  | nodeRemoved w key t title inp outp =>
    simp [applyEvent, handleEvent, keyEffect, evKey]
  | nodeInputAdded w key item =>
    simp [applyEvent, handleEvent, keyEffect, evKey]
  | nodeInputRemoved w key item =>
    simp [applyEvent, handleEvent, keyEffect, evKey]
  | nodeOutputAdded w key item =>
    simp [applyEvent, handleEvent, keyEffect, evKey]
  | nodeOutputRemoved w key item =>
    simp [applyEvent, handleEvent, keyEffect, evKey]

/-- Folding a batch of events over the table, projected to one key. -/
theorem lookupNode_applyEvents (st : NodesState) (now : Int) (project k : String)
    (evs : List WfEvent) :
    lookupNode (applyEvents st now project evs) project k =
      (evs.filter (fun e => evKey e == k)).foldl
        (fun cur e => keyEffect now project e cur) (lookupNode st project k) := by
  induction evs generalizing st with
  | nil => rfl
  | cons e tl ih =>
    have hstep : applyEvents st now project (e :: tl) =
        applyEvents (applyEvent st now project e) now project tl := rfl
    rw [hstep, ih]
    by_cases hk : evKey e = k
    · rw [List.filter_cons_of_pos (by simp [hk]), List.foldl_cons,
        lookupNode_applyEvent, if_pos hk]
    · rw [List.filter_cons_of_neg (by simp [hk]), lookupNode_applyEvent, if_neg hk]

/-- Node table obtained by projecting a workflow revision's node map (one
projected entry per declared node). -/
def tableOfGraph (project : String) (g : NodeMap) : NodesState :=
  g.map (fun kv => { id := kv.1, project := project, type := decodeType kv.2.type,
                     title := kv.2.title, notes := "", files := [], created := 0, modified := 0 })

theorem lookup_tableOfGraph (project : String) (g : NodeMap) (k : String) :
    lookupNode (tableOfGraph project g) project k =
      (g.lookup k).map (fun n =>
        { id := k, project := project, type := decodeType n.type, title := n.title,
          notes := "", files := [], created := 0, modified := 0 }) := by
  induction g with
  | nil => rfl
  | cons kv tl ih =>
    simp only [tableOfGraph, List.map_cons, lookupNode, List.find?, List.lookup] at *
    cases hbe : k == kv.1
    · have hbe2 : (kv.1 == k) = false := by
        simp only [beq_eq_false_iff_ne] at *
        exact fun h => hbe h.symm
      simp only [hbe2, Bool.and_false]
      exact ih
    · have hbe2 : (kv.1 == k) = true := by
        simp only [beq_iff_eq] at *
        exact hbe.symm
      have hk : kv.1 = k := by simpa using hbe2
      simp [hbe2, hk]

/-- Keys with no binding contribute no entries to a key filter. -/
theorem filter_key_of_lookup_none {β : Type} (l : List (String × β)) (k : String)
    (hl : l.lookup k = none) :
    l.filter (fun kv => kv.1 == k) = [] := by
  induction l with
  | nil => rfl
  | cons kv tl ih =>
    rw [List.lookup] at hl
    cases hbe : k == kv.1
    · rw [hbe] at hl
      rw [List.filter_cons_of_neg (by
        simp only [beq_eq_false_iff_ne] at hbe ⊢
        simp only [beq_iff_eq]
        exact fun h => hbe h.symm)]
      exact ih hl
    · rw [hbe] at hl
      cases hl

/-- Under distinct keys, filtering by the looked-up key yields exactly its
binding. -/
theorem filter_key_of_lookup {β : Type} (l : List (String × β)) (k : String) (v : β)
    (hnd : (l.map Prod.fst).Nodup) (hl : l.lookup k = some v) :
    l.filter (fun kv => kv.1 == k) = [(k, v)] := by
  induction l with
  | nil => cases hl
  | cons kv tl ih =>
    rw [List.map_cons, List.nodup_cons] at hnd
    rw [List.lookup] at hl
    cases hbe : k == kv.1
    · rw [hbe] at hl
      rw [List.filter_cons_of_neg (by
        simp only [beq_eq_false_iff_ne] at hbe ⊢
        simp only [beq_iff_eq]
        exact fun h => hbe h.symm)]
      exact ih hnd.2 hl
    · rw [hbe] at hl
      have hk : k = kv.1 := by simpa using hbe
      rw [List.filter_cons_of_pos (by simp [hk])]
      have htl : tl.filter (fun kv2 => kv2.1 == k) = [] := by
        rw [List.filter_eq_nil_iff]
        intro kv2 h2
        simp only [beq_iff_eq]
        intro hc
        exact hnd.1 (by
          rw [← hk, ← hc]
          exact List.mem_map.mpr ⟨kv2, h2, rfl⟩)
      rw [htl]
      cases kv with
  | mk a b =>
      injection hl with hl2
      simp only at hk
      rw [← hk]
      subst hl2
      rfl

/-- Components of a non-nil DiffGraph. -/
theorem DiffGraph_components (a b : NodeMap) (gd : GraphDiff)
    (h : DiffGraph a b = some gd) :
    gd.added = b.filter (fun kv => (a.lookup kv.1).isNone) ∧
    gd.removed = a.filter (fun kv => (b.lookup kv.1).isNone) ∧
    gd.changed = a.filterMap (changedEntry b) := by
  unfold DiffGraph at h
  split at h
  · cases h
  · injection h with h
    rw [← h]
    exact ⟨rfl, rfl, rfl⟩

theorem filter_flatMap {α β : Type} (l : List α) (g : α → List β) (p : β → Bool) :
    (l.flatMap g).filter p = l.flatMap (fun x => (g x).filter p) := by
  induction l with
  | nil => rfl
  | cons a tl ih => simp only [List.flatMap_cons, List.filter_append, ih]

theorem flatMap_if_filter {α β : Type} (l : List α) (g : α → List β) (p : α → Bool) :
    l.flatMap (fun x => if p x then g x else []) = (l.filter p).flatMap g := by
  induction l with
  | nil => rfl
  | cons a tl ih =>
    cases hp : p a
    · rw [List.flatMap_cons, List.filter_cons_of_neg (by simp [hp]), if_neg (by simp [hp]), ih]
      rfl
    · rw [List.flatMap_cons, List.filter_cons_of_pos hp, if_pos hp, List.flatMap_cons, ih]

/-- Every event emitted for a changed node names that node's key. -/
theorem evKey_nodeChangeEvents (wid : String) (kd : String × NodeDiff) :
    ∀ e ∈ nodeChangeEvents wid kd, evKey e = kd.1 := by
  intro e he
  unfold nodeChangeEvents at he
  rw [List.mem_append, List.mem_append] at he
  rcases he with (he | he) | he
  · split at he
    · rw [List.mem_singleton] at he
      rw [he]
      rfl
    · exact absurd he (List.not_mem_nil e)
  · rw [List.mem_map] at he
    obtain ⟨ib, -, hib⟩ := he
    cases hb : ib.2 <;> rw [← hib] <;> simp [hb, evKey]
  · rw [List.mem_map] at he
    obtain ⟨ib, -, hib⟩ := he
    cases hb : ib.2 <;> rw [← hib] <;> simp [hb, evKey]

/-- A changed entry carries the key of the node it was computed from. -/
theorem changedEntry_key (b : NodeMap) (kv : String × PNode) (kd : String × NodeDiff)
    (h : changedEntry b kv = some kd) : kd.1 = kv.1 := by
  unfold changedEntry at h
  rcases hb : b.lookup kv.1 with _ | bn
  · rw [hb] at h
    cases h
  · rw [hb] at h
    simp only at h
    rcases hd : DiffNode kv.2 bn with _ | d
    · rw [hd] at h
      cases h
    · rw [hd] at h
      have h2 : (kv.1, d) = kd := by simpa using h
      rw [← h2]

theorem filterMap_changed_key_nil (tl b : NodeMap) (k : String)
    (hk : k ∉ tl.map Prod.fst) :
    (tl.filterMap (changedEntry b)).filter (fun kd => kd.1 == k) = [] := by
  rw [List.filter_eq_nil_iff]
  intro kd hkd
  rw [List.mem_filterMap] at hkd
  obtain ⟨kv, hmem, hF⟩ := hkd
  have hkey : kd.1 = kv.1 := changedEntry_key b kv kd hF
  simp only [beq_iff_eq]
  intro hc
  exact hk (by
    rw [← hc, hkey]
    exact List.mem_map.mpr ⟨kv, hmem, rfl⟩)

/-- Key filter of the changed list: at most the diff of the key's own
binding survives. -/
theorem changed_filter_key (A B : NodeMap) (k : String)
    (hndA : (A.map Prod.fst).Nodup) :
    (A.filterMap (changedEntry B)).filter (fun kd => kd.1 == k) =
      (match A.lookup k with
      | none => []
      | some na =>
        match B.lookup k with
        | none => []
        | some nb =>
          match DiffNode na nb with
          | none => []
          | some d => [(k, d)]) := by
  induction A with
  | nil => rfl
  | cons kv tl ih =>
    rw [List.map_cons, List.nodup_cons] at hndA
    cases hbe : k == kv.1
    · have hbe2 : (kv.1 == k) = false := by
        simp only [beq_eq_false_iff_ne] at hbe ⊢
        exact fun h => hbe h.symm
      rw [List.filterMap_cons]
      simp only [List.lookup, hbe]
      rcases hF : changedEntry B kv with _ | kd
      · simp only
        exact ih hndA.2
      · simp only
        rw [List.filter_cons_of_neg (by
          rw [changedEntry_key B kv kd hF]
          simp [hbe2])]
        exact ih hndA.2
    · have hk : k = kv.1 := by simpa using hbe
      subst hk
      rw [List.filterMap_cons]
      simp only [List.lookup, beq_self_eq_true]
      rcases hB : B.lookup kv.1 with _ | nb
      · have hCE : changedEntry B kv = none := by
          simp [changedEntry, hB]
        rw [hCE]
        simp only
        exact filterMap_changed_key_nil tl B kv.1 hndA.1
      · simp only
        rcases hd : DiffNode kv.2 nb with _ | d
        · have hCE : changedEntry B kv = none := by
            simp [changedEntry, hB, hd]
          rw [hCE]
          simp only
          exact filterMap_changed_key_nil tl B kv.1 hndA.1
        · have hCE : changedEntry B kv = some (kv.1, d) := by
            simp [changedEntry, hB, hd]
          rw [hCE]
          simp only
          rw [List.filter_cons_of_pos (by simp)]
          rw [filterMap_changed_key_nil tl B kv.1 hndA.1]

theorem combined_filter_nil_of_absent {β γ : Type} (l : List (String × β))
    (other : List (String × γ)) (k : String) (h : l.lookup k = none) :
    l.filter (fun kv => kv.1 == k && (other.lookup kv.1).isNone) = [] := by
  rw [List.filter_eq_nil_iff]
  intro kv hkv
  cases hc : kv.1 == k
  · simp [hc]
  · have hk : kv.1 = k := by simpa using hc
    exfalso
    have hmem : ((k, kv.2) : String × β) ∈ l := by
      rw [← hk]
      simpa using hkv
    have hs := lookup_isSome_of_mem hmem
    rw [h] at hs
    cases hs

theorem combined_filter_nil_of_other_present {β γ : Type} (l : List (String × β))
    (other : List (String × γ)) (k : String) (v : γ) (h : other.lookup k = some v) :
    l.filter (fun kv => kv.1 == k && (other.lookup kv.1).isNone) = [] := by
  rw [List.filter_eq_nil_iff]
  intro kv hkv
  cases hc : kv.1 == k
  · simp [hc]
  · have hk : kv.1 = k := by simpa using hc
    simp [hc, hk, h]

theorem combined_filter_single {β γ : Type} (l : List (String × β))
    (other : List (String × γ)) (k : String) (v : β)
    (hnd : (l.map Prod.fst).Nodup) (hl : l.lookup k = some v)
    (hother : other.lookup k = none) :
    l.filter (fun kv => kv.1 == k && (other.lookup kv.1).isNone) = [(k, v)] := by
  have hcg : l.filter (fun kv => kv.1 == k && (other.lookup kv.1).isNone) =
      l.filter (fun kv => kv.1 == k) := by
    apply List.filter_congr
    intro kv hkv
    cases hc : kv.1 == k
    · simp [hc]
    · have hk : kv.1 = k := by simpa using hc
      simp [hc, hk, hother]
  rw [hcg, filter_key_of_lookup l k v hnd hl]

theorem nodeChangeEvents_filter (wid : String) (kd : String × NodeDiff) (k : String) :
    (nodeChangeEvents wid kd).filter (fun e => evKey e == k) =
      if kd.1 == k then nodeChangeEvents wid kd else [] := by
  by_cases hc : (kd.1 == k) = true
  · rw [if_pos hc]
    apply List.filter_eq_self.mpr
    intro e he
    rw [evKey_nodeChangeEvents wid kd e he]
    exact hc
  · rw [if_neg hc]
    rw [List.filter_eq_nil_iff]
    intro e he
    rw [evKey_nodeChangeEvents wid kd e he]
    exact hc

/-- Events of a workflow diff that name the key `k`: one node.added when
the key is new, one node.removed when it is dropped, and the change events
of its node diff when it survives. -/
theorem eventsOfDiff_filter_key (wid k : String) (A B : NodeMap) (gd : GraphDiff)
    (hndA : (A.map Prod.fst).Nodup) (hndB : (B.map Prod.fst).Nodup)
    (hgd : DiffGraph A B = some gd) :
    (eventsOfDiff wid gd).filter (fun e => evKey e == k) =
      (match A.lookup k, B.lookup k with
      | none, none => []
      | none, some nb => [WfEvent.nodeAdded wid k nb.type nb.title nb.input nb.output]
      | some na, none => [WfEvent.nodeRemoved wid k na.type na.title na.input na.output]
      | some na, some nb =>
        match DiffNode na nb with
        | none => []
        | some d => nodeChangeEvents wid (k, d)) := by
  obtain ⟨hadd, hrem, hchg⟩ := DiffGraph_components A B gd hgd
  unfold eventsOfDiff
  rw [hadd, hrem, hchg, List.filter_append, List.filter_append,
    List.filter_map, List.filter_map, filter_flatMap]
  rw [show ((fun e => evKey e == k) ∘ (fun kv : String × PNode =>
      WfEvent.nodeAdded wid kv.1 kv.2.type kv.2.title kv.2.input kv.2.output)) =
      (fun kv : String × PNode => kv.1 == k) from rfl]
  rw [show ((fun e => evKey e == k) ∘ (fun kv : String × PNode =>
      WfEvent.nodeRemoved wid kv.1 kv.2.type kv.2.title kv.2.input kv.2.output)) =
      (fun kv : String × PNode => kv.1 == k) from rfl]
  rw [List.filter_filter, List.filter_filter]
  have hfun : (fun kd : String × NodeDiff =>
      (nodeChangeEvents wid kd).filter (fun e => evKey e == k)) =
      (fun kd => if kd.1 == k then nodeChangeEvents wid kd else []) := by
    funext kd
    exact nodeChangeEvents_filter wid kd k
  rw [hfun, flatMap_if_filter, changed_filter_key A B k hndA]
  rcases hA : A.lookup k with _ | na
  · rcases hB : B.lookup k with _ | nb
    · rw [combined_filter_nil_of_absent B A k hB, combined_filter_nil_of_absent A B k hA]
      simp
    · rw [combined_filter_single B A k nb hndB hB hA, combined_filter_nil_of_absent A B k hA]
      simp
  · rcases hB : B.lookup k with _ | nb
    · rw [combined_filter_nil_of_absent B A k hB, combined_filter_single A B k na hndA hA hB]
      simp
    · rw [combined_filter_nil_of_other_present B A k na hA,
        combined_filter_nil_of_other_present A B k nb hB]
      rcases hd : DiffNode na nb with _ | d
      · simp only
        rw [hd]
        simp
      · simp only
        rw [hd]
        simp

/-- Input/output delta events, which the projection ignores. -/
def isDeltaEvent : WfEvent → Bool
  | .nodeInputAdded _ _ _ => true
  | .nodeInputRemoved _ _ _ => true
  | .nodeOutputAdded _ _ _ => true
  | .nodeOutputRemoved _ _ _ => true
  | _ => false

theorem keyEffect_delta (now : Int) (project : String) (e : WfEvent) (cur : Option NNode)
    (h : isDeltaEvent e = true) : keyEffect now project e cur = cur := by
  cases e with
  | nodeAdded _ _ _ _ _ _ => simp [isDeltaEvent] at h
  | nodeRemoved _ _ _ _ _ _ => rfl
  | nodeRenamed _ _ _ _ => simp [isDeltaEvent] at h
  | nodeInputAdded _ _ _ => rfl
  | nodeInputRemoved _ _ _ => rfl
  | nodeOutputAdded _ _ _ => rfl
  | nodeOutputRemoved _ _ _ => rfl

theorem foldl_keyEffect_deltas (now : Int) (project : String) (l : List WfEvent)
    (cur : Option NNode) (h : ∀ e ∈ l, isDeltaEvent e = true) :
    l.foldl (fun c e => keyEffect now project e c) cur = cur := by
  induction l generalizing cur with
  | nil => rfl
  | cons e tl ih =>
    rw [List.foldl_cons, keyEffect_delta now project e cur (h e (by simp))]
    exact ih cur (fun e2 he2 => h e2 (by simp [he2]))

theorem isDelta_input_map (wid k : String) (l : List (String × Bool)) :
    ∀ e ∈ l.map (fun ib => if ib.2 then WfEvent.nodeInputAdded wid k ib.1
        else WfEvent.nodeInputRemoved wid k ib.1), isDeltaEvent e = true := by
  intro e he
  rw [List.mem_map] at he
  obtain ⟨ib, -, hib⟩ := he
  cases h2 : ib.2 <;> rw [← hib] <;> simp [h2, isDeltaEvent]

theorem isDelta_output_map (wid k : String) (l : List (String × Bool)) :
    ∀ e ∈ l.map (fun ib => if ib.2 then WfEvent.nodeOutputAdded wid k ib.1
        else WfEvent.nodeOutputRemoved wid k ib.1), isDeltaEvent e = true := by
  intro e he
  rw [List.mem_map] at he
  obtain ⟨ib, -, hib⟩ := he
  cases h2 : ib.2 <;> rw [← hib] <;> simp [h2, isDeltaEvent]

/-- Folding the change events of one node over its projected entry: only
the rename (emitted when ToTitle is non-empty) has an effect. -/
theorem foldl_keyEffect_changeEvents (now : Int) (project wid k : String) (d : NodeDiff)
    (m0 : NNode) (hident : nodeHasIdent k project = true) :
    (nodeChangeEvents wid (k, d)).foldl (fun c e => keyEffect now project e c) (some m0) =
      if d.toTitle ≠ "" then some { m0 with title := d.toTitle, modified := now }
      else some m0 := by
  unfold nodeChangeEvents
  rw [List.foldl_append, List.foldl_append]
  by_cases ht : d.toTitle ≠ ""
  · rw [if_pos ht, if_pos ht]
    simp only [List.foldl_cons, List.foldl_nil]
    rw [show keyEffect now project (WfEvent.nodeRenamed wid (k, d).1 d.fromTitle d.toTitle)
        (some m0) = some { m0 with title := d.toTitle, modified := now } from by
      simp [keyEffect, hident]]
    rw [foldl_keyEffect_deltas now project _ _ (isDelta_input_map wid (k, d).1 d.input),
      foldl_keyEffect_deltas now project _ _ (isDelta_output_map wid (k, d).1 d.output)]
  · rw [if_neg ht, if_neg ht]
    simp only [List.foldl_nil]
    rw [foldl_keyEffect_deltas now project _ _ (isDelta_input_map wid (k, d).1 d.input),
      foldl_keyEffect_deltas now project _ _ (isDelta_output_map wid (k, d).1 d.output)]

/-- ToTitle of a non-nil node diff, as DiffNode computes it. -/
theorem DiffNode_toTitle (a b : PNode) (d : NodeDiff) (h : DiffNode a b = some d) :
    d.toTitle = if a.title = b.title then "" else b.title := by
  unfold DiffNode at h
  by_cases heq : a.title = b.title
  · simp only [if_pos heq] at h ⊢
    split at h
    · injection h with h
      rw [← h]
    · cases h
  · simp only [if_neg heq] at h ⊢
    split at h
    · injection h with h
      rw [← h]
    · cases h

/-- Claim C3 (counterexample) --- a workflow transition that changes a
surviving node's type (here data to manual, with a title change so the
diff is non-empty) emits no event carrying the new type: the projected
node keeps the old type DATA while the new revision declares MANUAL, so
the projection does not converge to the new revision on the type field. -/
theorem projection_type_change_counterexample :
    DiffGraph [("a", { title := "A", type := "data", input := [], output := [] })]
        [("a", { title := "B", type := "manual", input := [], output := [] })] =
      some { added := [], removed := [],
             changed := [("a", { fromTitle := "A", toTitle := "B",
                                 input := [], output := [] })] } ∧
    lookupNode (applyEvents
        (tableOfGraph "p" [("a", { title := "A", type := "data", input := [], output := [] })])
        7 "p"
        (eventsOfDiff "w"
          { added := [], removed := [],
            changed := [("a", { fromTitle := "A", toTitle := "B",
                                input := [], output := [] })] })) "p" "a" =
      some { id := "a", project := "p", type := .DATA, title := "B", notes := "",
             files := [], created := 0, modified := 7 } ∧
    decodeType "manual" = .MANUAL ∧ NodeType.DATA ≠ NodeType.MANUAL := by
  refine ⟨by decide, by decide, by decide, by decide⟩

/-- Claim C3 (amended) --- applying the events UpdateWorkflow emits for a
transition R to R2 to the node table projected from R: a key newly added
in R2 (well-formed, with a recognized type) gets a projected node whose
type and title match R2; a surviving key keeps the type projected from R
(type changes emit no event), and its title converges to R2's title
whenever both revisions give it a non-empty title. -/
theorem projection_converges (project wid : String) (now : Int) (A B : NodeMap)
    (gd : GraphDiff)
    (hndA : (A.map Prod.fst).Nodup) (hndB : (B.map Prod.fst).Nodup)
    (hgd : DiffGraph A B = some gd)
    (k : String) (nb : PNode) (hkB : B.lookup k = some nb)
    (hident : nodeHasIdent k project = true) :
    (A.lookup k = none → decodeType nb.type ≠ .UNKNOWN →
      lookupNode (applyEvents (tableOfGraph project A) now project (eventsOfDiff wid gd))
          project k =
        some { id := k, project := project, type := decodeType nb.type, title := nb.title,
               notes := "", files := [], created := now, modified := 0 }) ∧
    (∀ na, A.lookup k = some na →
      ∃ m, lookupNode (applyEvents (tableOfGraph project A) now project (eventsOfDiff wid gd))
          project k = some m ∧
        m.type = decodeType na.type ∧
        (na.title ≠ "" → nb.title ≠ "" → m.title = nb.title)) := by
  constructor
  · intro hA htype
    rw [lookupNode_applyEvents, lookup_tableOfGraph,
      eventsOfDiff_filter_key wid k A B gd hndA hndB hgd, hA, hkB]
    simp only [Option.map_none', List.foldl_cons, List.foldl_nil, keyEffect]
    rw [if_pos ⟨hident, htype⟩]
  · intro na hA
    rw [lookupNode_applyEvents, lookup_tableOfGraph,
      eventsOfDiff_filter_key wid k A B gd hndA hndB hgd, hA, hkB]
    simp only [Option.map_some']
    rcases hd : DiffNode na nb with _ | d
    · simp only [List.foldl_nil]
      refine ⟨_, rfl, rfl, ?_⟩
      intro hna _
      have hnone := (DiffNode_eq_none_iff na nb).mp hd
      rcases hnone.1 with he | he
      · exact he
      · exact absurd he hna
    · rw [foldl_keyEffect_changeEvents now project wid k d _ hident]
      by_cases ht : d.toTitle ≠ ""
      · rw [if_pos ht]
        refine ⟨_, rfl, rfl, ?_⟩
        intro _ _
        have htt := DiffNode_toTitle na nb d hd
        by_cases heq : na.title = nb.title
        · exfalso
          apply ht
          rw [htt, if_pos heq]
        · simp only
          rw [htt, if_neg heq]
      · rw [if_neg ht]
        refine ⟨_, rfl, rfl, ?_⟩
        intro _ hnb
        have htt := DiffNode_toTitle na nb d hd
        by_cases heq : na.title = nb.title
        · exact heq
        · exfalso
          rw [if_neg heq] at htt
          rw [not_not] at ht
          exact hnb (by rw [← htt, ht])

/-- Witness for C3: transition adding node b (compute, title N) and
retitling node a from A to B; the projection gains node b with the
declared type and title, and node a keeps type DATA with the new title. -/
theorem projection_converges_witness :
    lookupNode (applyEvents
        (tableOfGraph "p" [("a", { title := "A", type := "data", input := [], output := [] })])
        3 "p"
        (eventsOfDiff "w"
          { added := [("b", { title := "N", type := "compute", input := [], output := [] })],
            removed := [],
            changed := [("a", { fromTitle := "A", toTitle := "B",
                                input := [], output := [] })] })) "p" "b" =
      some { id := "b", project := "p", type := decodeType "compute", title := "N",
             notes := "", files := [], created := 3, modified := 0 } := by
  have h := (projection_converges "p" "w" 3
    [("a", { title := "A", type := "data", input := [], output := [] })]
    [("a", { title := "B", type := "data", input := [], output := [] }),
     ("b", { title := "N", type := "compute", input := [], output := [] })]
    { added := [("b", { title := "N", type := "compute", input := [], output := [] })],
      removed := [],
      changed := [("a", { fromTitle := "A", toTitle := "B", input := [], output := [] })] }
    (by decide) (by decide) (by decide)
    "b" { title := "N", type := "compute", input := [], output := [] } (by decide)
    (by decide)).1 (by decide) (by decide)
  exact h

/-! ## Data object registry (src/data/service.go)

Objects live in one `objects` collection.  `Update` re-reads the record,
rejects any update once the state is DONE, applies the per-state field
updates, and performs an optimistic compare-and-set on the version
counter; in this sequential model no concurrent writer exists, so the CAS
always matches and bumps the version. -/

inductive DState where
  | UNKNOWN
  | CREATED
  | INPROGRESS
  | ERROR
  | DONE
  deriving Repr, DecidableEq

structure DObject where
  id : String
  createTime : Int
  state : DState
  error : String
  bucket : String
  storage : String
  importURL : String
  importTime : Int
  putTime : Int
  hash : String
  size : Int
  mediatype : String
  compression : String
  version : Int
  modifiedTime : Int
  deriving Repr, DecidableEq

structure UpdateRequest where
  id : String
  state : DState
  error : String
  importTime : Int
  putTime : Int
  hash : String
  size : Int
  mediatype : String

/-- Mongo Update on the matching record. -/
def applySet (st : List DObject) (id : String) (f : DObject → DObject) : List DObject :=
  st.map (fun o => if o.id == id then f o else o)

/-- Update translated from data service.Update.  Note the DONE branch
sets state, put_time, hash and size only: the request's mediatype is not
written. -/
def updateOp (st : List DObject) (now : Int) (req : UpdateRequest) :
    Except Err (List DObject) :=
  match st.find? (fun o => o.id == req.id) with
  | none => .error (.notFound "object not found")
  | some d =>
    if d.state = .DONE then .error (.failedPrecondition "object is done")
    else if req.state = .UNKNOWN then .error (.invalidArgument "state required")
    else
      match req.state with
      | .INPROGRESS =>
          .ok (applySet st req.id (fun o =>
            { o with state := req.state, error := "", importTime := req.importTime,
                     version := d.version + 1, modifiedTime := now }))
      | .ERROR =>
          .ok (applySet st req.id (fun o =>
            { o with state := req.state, error := req.error,
                     version := d.version + 1, modifiedTime := now }))
      | .DONE =>
          if d.state ≠ .INPROGRESS then
            .error (.invalidArgument "object cannot transition to DONE from DONE")
          else
            .ok (applySet st req.id (fun o =>
              { o with state := req.state, putTime := req.putTime, hash := req.hash,
                       size := req.size, version := d.version + 1, modifiedTime := now }))
      | _ => .error (.invalidArgument "object cannot transition to state")

/-- Claim C7 --- Update to DONE from INPROGRESS succeeds and sets
put_time, hash and size, but does NOT set the requested mediatype (the
record keeps its old empty mediatype although the request carries
"text/plain" --- both callers of the DONE update pass the mediatype and
the gateway serves it, so the dropped field is a code bug against the
spec); and any Update on a DONE object fails FailedPrecondition
"object is done". -/
theorem update_done_mediatype_dropped :
    updateOp
      [{ id := "o1", createTime := 0, state := .INPROGRESS, error := "", bucket := "b",
         storage := "local", importURL := "", importTime := 1, putTime := 0, hash := "",
         size := 0, mediatype := "", compression := "", version := 2, modifiedTime := 0 }]
      9
      { id := "o1", state := .DONE, error := "", importTime := 0, putTime := 5,
        hash := "sha256:ab", size := 3, mediatype := "text/plain" } =
      .ok
        [{ id := "o1", createTime := 0, state := .DONE, error := "", bucket := "b",
           storage := "local", importURL := "", importTime := 1, putTime := 5,
           hash := "sha256:ab", size := 3, mediatype := "", compression := "",
           version := 3, modifiedTime := 9 }] ∧
    ("" : String) ≠ "text/plain" ∧
    updateOp
      [{ id := "o1", createTime := 0, state := .DONE, error := "", bucket := "b",
         storage := "local", importURL := "", importTime := 1, putTime := 5,
         hash := "sha256:ab", size := 3, mediatype := "", compression := "",
         version := 3, modifiedTime := 9 }]
      11
      { id := "o1", state := .DONE, error := "", importTime := 0, putTime := 6,
        hash := "sha256:cd", size := 4, mediatype := "text/plain" } =
      .error (.failedPrecondition "object is done") := by
  refine ⟨rfl, by decide, rfl⟩

/-! ## Commit race (claim C9)

service.Commit is not serialized: the read phase (latest commit, latest
event) and the insert are separate datastore operations, and the source
marks the gap with "TODO: there is a race condition here".  The two
phases are modelled separately; interleaving two commit requests'
read phases before either insert reproduces the race. -/

/-- Read phase of service.Commit: everything before the insert. -/
def commitPlan (st : CLState) (freshId : Nat) (now : Int) (req : CommitRequest) :
    Except Err CLCommit :=
  if req.project = "" then .error (.invalidArgument "project required") else
  let msg := trimSpace req.msg
  if msg = "" then .error (.invalidArgument "message required") else
  let latest := maxBy CLCommit.id st.commits
  let cands := match latest with
    | none => st.events
    | some l => st.events.filter (fun e => decide (l.event < e.id))
  match maxBy CLEvent.id cands with
  | none => .error (.failedPrecondition "nothing to commit")
  | some e =>
    let parent : Option Nat := match latest with
      | none => none
      | some l => some l.id
    .ok { id := freshId, msg := msg, author := req.author, time := now,
          parent := parent, event := e.id }

/-- Insert phase of service.Commit. -/
def commitInsert (st : CLState) (c : CLCommit) : CLState :=
  { st with commits := st.commits ++ [c] }

/-- The sequential operation is exactly the read phase followed by the
insert phase. -/
theorem commitOp_eq_plan (st : CLState) (freshId : Nat) (now : Int) (req : CommitRequest) :
    commitOp st freshId now req =
      (commitPlan st freshId now req).map (fun c => (commitInsert st c, freshId)) := by
  simp only [commitOp, commitPlan, commitInsert]
  by_cases h1 : req.project = ""
  · simp only [if_pos h1]
    rfl
  · simp only [if_neg h1]
    by_cases h2 : trimSpace req.msg = ""
    · simp only [if_pos h2]
      rfl
    · simp only [if_neg h2]
      cases maxBy CLEvent.id (match maxBy CLCommit.id st.commits with
        | none => st.events
        | some l => st.events.filter (fun e => decide (l.event < e.id))) <;> rfl

/-- Claim C9 --- the commit race: with one event (id 5) and no commit,
two Commit requests both run their read phase before either insert.  Both
reads succeed and plan root commits (parent empty) with the same event
pointer 5; both inserts then succeed, so the log holds two commits sealing
the same range: both claim every event up to id 5.  Neither request
failed, and the sealed ranges are identical, not disjoint. -/
theorem commit_race_overlapping_seal :
    commitPlan { events := [{ id := 5, time := 0, type := "t", author := "u", data := "" }],
                 commits := [] } 7 0 { project := "p", author := "u", msg := "m" } =
      .ok { id := 7, msg := "m", author := "u", time := 0, parent := none, event := 5 } ∧
    commitPlan { events := [{ id := 5, time := 0, type := "t", author := "u", data := "" }],
                 commits := [] } 8 0 { project := "p", author := "u", msg := "m" } =
      .ok { id := 8, msg := "m", author := "u", time := 0, parent := none, event := 5 } ∧
    (commitInsert
        (commitInsert
          { events := [{ id := 5, time := 0, type := "t", author := "u", data := "" }],
            commits := [] }
          { id := 7, msg := "m", author := "u", time := 0, parent := none, event := 5 })
        { id := 8, msg := "m", author := "u", time := 0, parent := none, event := 5 }).commits =
      [{ id := 7, msg := "m", author := "u", time := 0, parent := none, event := 5 },
       { id := 8, msg := "m", author := "u", time := 0, parent := none, event := 5 }] := by
  refine ⟨rfl, rfl, rfl⟩
